import Mathlib

/-!
Verification development for the wevm host-function execution environment.

The host functions of `src/native/src/env/call_contract.rs` and
`src/native/src/env/utils.rs` are shallowly embedded as Lean functions over an
explicit runtime state.  Guest linear memory is a `List Nat` of byte values; a
host function that in Rust returns a status is embedded as a function returning
`Option (status × state)`, where `none` models a Rust panic (an out-of-bounds
slice index `memory[offset..offset+length]` panics and aborts the host; it does
not produce a guest-observable status).  Parts of the repository that are not
under `src/` (the runtime/stack/payments types and the `write_memory!` macro)
are modelled from the specification and are marked as such in their doc
comments.
-/

/-- Models the `RuntimeError` enum of runtime.rs.  The enum itself is not under
src/; the variant set is taken from the uses in src/ and from spec section 6. -/
inductive RuntimeError
  | MemoryNotFound
  | Utf8Error
  | Base58Error
  | InvalidResult
  | InvalidBytecode
deriving DecidableEq

/-- Modelled from the spec: the concrete numeric sentinel values of
`RuntimeError as i32` live in runtime.rs, which is not under src/.  Spec
section 6 only requires a closed enumeration of values outside the domain of
legitimate results ("all negative"); we pick distinct negative integers. -/
def RuntimeError.asI32 : RuntimeError → Int
  | .MemoryNotFound => -1
  | .Utf8Error => -2
  | .Base58Error => -3
  | .InvalidResult => -4
  | .InvalidBytecode => -5

/-- Models the `DataEntry` enum of data_entry.rs (not under src/, but its
constructor uses in src/ fix the shape): `Integer(i64)`, `Boolean(i32)`,
`Binary(Vec<u8>)`, `String(Vec<u8>)`.  Note that in
`src/native/src/env/call_contract.rs` the `String` variant is built from raw
bytes (`value.to_vec()`), so it carries a byte sequence. -/
inductive DataEntry
  | Integer : Int → DataEntry
  | Boolean : Int → DataEntry
  | Binary : List Nat → DataEntry
  | String : List Nat → DataEntry
deriving DecidableEq

/-- Modelled from the spec: the payments ledger lives in runtime.rs, which is
not under src/.  Spec section 3: a mapping from asset identifier (byte
sequence) to a signed amount; "Multiple declarations for the same asset before
a single call accumulate (sum), not overwrite."  `paymentsPush` models the
`payments.push(asset_id, amount)` call of src/native/src/env/call_contract.rs. -/
def paymentsPush : List (List Nat × Int) → List Nat → Int → List (List Nat × Int)
  | [], asset, amount => [(asset, amount)]
  | (a, v) :: rest, asset, amount =>
    if a = asset then (a, v + amount) :: rest
    else (a, v) :: paymentsPush rest asset amount

/-- Models the per-frame `Runtime` state of runtime.rs (not under src/; the
fields are fixed by their uses in src/): the optionally attached linear memory,
the heap base, the staged argument queue and the staged payments ledger. -/
structure Runtime where
  memory : Option (List Nat)
  heapBase : Nat
  args : List DataEntry
  payments : List (List Nat × Int)
deriving DecidableEq

/-- Models the Rust slice expression `&memory[offset..offset + length]` used
throughout src/native/src/env/.  Rust slice indexing panics when
`offset + length` exceeds the slice length; the panic is modelled as `none`.
No bounds check precedes any of these slice expressions in src/. -/
def readBytes (memory : List Nat) (offset length : Nat) : Option (List Nat) :=
  if offset + length ≤ memory.length then some ((memory.drop offset).take length)
  else none

/-- Models `CallArgInt` of src/native/src/env/call_contract.rs: push an
`Integer` entry; no failure mode. -/
def CallArgInt (rt : Runtime) (value : Int) : Runtime :=
  { rt with args := rt.args ++ [DataEntry.Integer value] }

/-- Models `CallArgBool` of src/native/src/env/call_contract.rs: push a
`Boolean` entry; no failure mode. -/
def CallArgBool (rt : Runtime) (value : Int) : Runtime :=
  { rt with args := rt.args ++ [DataEntry.Boolean value] }

/-- Models `CallArgBinary` of src/native/src/env/call_contract.rs: read a
memory slice and push it as a `Binary` entry, returning status 0; returns the
`MemoryNotFound` sentinel when no memory is attached.  The slice expression
panics (`none`) out of bounds. -/
def CallArgBinary (rt : Runtime) (offsetValue lengthValue : Nat) :
    Option (Int × Runtime) :=
  match rt.memory with
  | none => some (RuntimeError.MemoryNotFound.asI32, rt)
  | some mem =>
    match readBytes mem offsetValue lengthValue with
    | none => none
    | some value =>
      some (0, { rt with args := rt.args ++ [DataEntry.Binary value] })

/-- Models `CallArgString` of src/native/src/env/call_contract.rs: read a
memory slice and push it as a `String` entry, returning status 0; returns the
`MemoryNotFound` sentinel when no memory is attached.  The source performs no
UTF-8 validation on the slice (`DataEntry::String(value.to_vec())`). -/
def CallArgString (rt : Runtime) (offsetValue lengthValue : Nat) :
    Option (Int × Runtime) :=
  match rt.memory with
  | none => some (RuntimeError.MemoryNotFound.asI32, rt)
  | some mem =>
    match readBytes mem offsetValue lengthValue with
    | none => none
    | some value =>
      some (0, { rt with args := rt.args ++ [DataEntry.String value] })

/-- Models `CallPayment` of src/native/src/env/call_contract.rs: read the asset
identifier from memory and accumulate `amount` into the payments ledger. -/
def CallPayment (rt : Runtime) (offsetAssetId lengthAssetId : Nat)
    (amount : Int) : Option (Int × Runtime) :=
  match rt.memory with
  | none => some (RuntimeError.MemoryNotFound.asI32, rt)
  | some mem =>
    match readBytes mem offsetAssetId lengthAssetId with
    | none => none
    | some assetId =>
      some (0, { rt with payments := paymentsPush rt.payments assetId amount })

/-- Tests whether a byte is a UTF-8 continuation byte (`0x80..=0xBF`). -/
def utf8Cont (b : Nat) : Bool := 128 ≤ b && b < 192

/-- Models Rust `str::from_utf8` validity on a byte sequence (the standard
UTF-8 well-formedness check: lead-byte ranges, continuation bytes, rejection
of overlong encodings, surrogates and values above U+10FFFF). -/
def validUtf8 : List Nat → Bool
  | [] => true
  | b :: rest =>
    if b < 128 then validUtf8 rest
    else if b < 194 then false
    else if b < 224 then
      match rest with
      | c1 :: r => utf8Cont c1 && validUtf8 r
      | [] => false
    else if b < 240 then
      match rest with
      | c1 :: c2 :: r =>
        (if b = 224 then decide (160 ≤ c1) && decide (c1 < 192)
         else if b = 237 then decide (128 ≤ c1) && decide (c1 < 160)
         else utf8Cont c1) && utf8Cont c2 && validUtf8 r
      | _ => false
    else if b < 245 then
      match rest with
      | c1 :: c2 :: c3 :: r =>
        (if b = 240 then decide (144 ≤ c1) && decide (c1 < 192)
         else if b = 244 then decide (128 ≤ c1) && decide (c1 < 144)
         else utf8Cont c1) && utf8Cont c2 && utf8Cont c3 && validUtf8 r
      | _ => false
    else false

/-- Modelled from the spec: the `write_memory!` macro is not under src/.  Spec
section 4.1: "bytes are written starting at the current heap-base address, and
the function returns a 3-tuple (status=0, write-offset, byte-length)".
Returns the updated memory together with that triple. -/
def writeMemory (mem : List Nat) (offset : Nat) (bytes : List Nat) :
    List Nat × (Int × Int × Int) :=
  (mem.take offset ++ bytes ++ mem.drop (offset + bytes.length),
   (0, (offset : Int), (bytes.length : Int)))

/-- Models `BytesEquals` of src/native/src/env/utils.rs: byte-exact comparison
of two memory regions, result `(status, boolean-as-i32)`. -/
def BytesEquals (rt : Runtime)
    (offsetLeft lengthLeft offsetRight lengthRight : Nat) :
    Option (Int × Int) :=
  match rt.memory with
  | none => some (RuntimeError.MemoryNotFound.asI32, 0)
  | some mem =>
    match readBytes mem offsetLeft lengthLeft with
    | none => none
    | some left =>
      match readBytes mem offsetRight lengthRight with
      | none => none
      | some right => some (0, if left = right then 1 else 0)

/-- Models `StringEquals` of src/native/src/env/utils.rs: UTF-8 decode both
regions (failing with `Utf8Error`), then compare; Rust `&str` equality is
byte equality of the underlying slices. -/
def StringEquals (rt : Runtime)
    (offsetLeft lengthLeft offsetRight lengthRight : Nat) :
    Option (Int × Int) :=
  match rt.memory with
  | none => some (RuntimeError.MemoryNotFound.asI32, 0)
  | some mem =>
    match readBytes mem offsetLeft lengthLeft with
    | none => none
    | some left =>
      if validUtf8 left then
        match readBytes mem offsetRight lengthRight with
        | none => none
        | some right =>
          if validUtf8 right then some (0, if left = right then 1 else 0)
          else some (RuntimeError.Utf8Error.asI32, 0)
      else some (RuntimeError.Utf8Error.asI32, 0)

/-- Models `Concat` of src/native/src/env/utils.rs: read two memory regions,
concatenate left ++ right, write the result via the write protocol. -/
def Concat (rt : Runtime)
    (offsetLeft lengthLeft offsetRight lengthRight : Nat) :
    Option ((Int × Int × Int) × Runtime) :=
  match rt.memory with
  | none => some ((RuntimeError.MemoryNotFound.asI32, 0, 0), rt)
  | some mem =>
    match readBytes mem offsetLeft lengthLeft with
    | none => none
    | some left =>
      match readBytes mem offsetRight lengthRight with
      | none => none
      | some right =>
        let w := writeMemory mem rt.heapBase (left ++ right)
        some (w.2, { rt with memory := some w.1 })

/-- Byte values of the base58 alphabet
"123456789ABCDEFGHJKLMNPQRSTUVWXYZabcdefghijkmnopqrstuvwxyz" used by the
`base58` crate that utils.rs delegates to. -/
def base58Alphabet : List Nat :=
  [49, 50, 51, 52, 53, 54, 55, 56, 57,
   65, 66, 67, 68, 69, 70, 71, 72, 74, 75, 76, 77, 78,
   80, 81, 82, 83, 84, 85, 86, 87, 88, 89, 90,
   97, 98, 99, 100, 101, 102, 103, 104, 105, 106, 107,
   109, 110, 111, 112, 113, 114, 115, 116, 117, 118, 119, 120, 121, 122]

/-- Counts the leading occurrences of `x` in a byte list. -/
def leadCount (x : Nat) (l : List Nat) : Nat :=
  (l.takeWhile (fun b => b == x)).length

/-- Fuel-bounded big-endian base conversion loop (the iterative big-number
division loop of the `base58` crate, with the fuel bounding the digit count). -/
def natToDigitsGo (base : Nat) : Nat → Nat → List Nat
  | 0, _ => []
  | fuel + 1, n => if n = 0 then [] else natToDigitsGo base fuel (n / base) ++ [n % base]

/-- Big-endian digit list (most significant first, no leading zero digit) of a
natural number in the given base; `[]` for 0. -/
def natToBytesBE (base n : Nat) : List Nat := natToDigitsGo base n n

/-- Value of a big-endian digit list in the given base (the big-number
accumulation loop of the `base58` crate: `acc = acc * base + digit`). -/
def bytesToNatBE (base : Nat) (l : List Nat) : Nat :=
  l.foldl (fun acc d => acc * base + d) 0

/-- Models `FromBase58::from_base58` of the `base58` crate (the decoder used by
`Base58` in utils.rs): every character must be in the base58 alphabet; the
digit string is read as a big-endian base-58 number converted to big-endian
base-256 bytes, with one leading zero byte per leading '1' character. -/
def fromBase58 (s : List Nat) : Option (List Nat) :=
  if s.all (fun c => base58Alphabet.contains c) then
    some (List.replicate (leadCount 49 s) 0 ++
      natToBytesBE 256 (bytesToNatBE 58 (s.map (fun c => base58Alphabet.indexOf c))))
  else none

/-- Models `ToBase58::to_base58` of the `base58` crate (the encoder used by
`ToBase58String` in utils.rs): the bytes are read as a big-endian base-256
number converted to big-endian base-58 digits mapped through the alphabet,
with one leading '1' character per leading zero byte. -/
def toBase58 (b : List Nat) : List Nat :=
  List.replicate (leadCount 0 b) 49 ++
    (natToBytesBE 58 (bytesToNatBE 256 b)).map (fun d => base58Alphabet.getD d 0)

/-- Models `Base58` of src/native/src/env/utils.rs: read a memory slice,
require valid UTF-8 (`Utf8Error`), decode base58 (`Base58Error` on invalid
input), write the decoded bytes via the write protocol. -/
def Base58 (rt : Runtime) (offsetBytes lengthBytes : Nat) :
    Option ((Int × Int × Int) × Runtime) :=
  match rt.memory with
  | none => some ((RuntimeError.MemoryNotFound.asI32, 0, 0), rt)
  | some mem =>
    match readBytes mem offsetBytes lengthBytes with
    | none => none
    | some bytes =>
      if validUtf8 bytes then
        match fromBase58 bytes with
        | some result =>
          let w := writeMemory mem rt.heapBase result
          some (w.2, { rt with memory := some w.1 })
        | none => some ((RuntimeError.Base58Error.asI32, 0, 0), rt)
      else some ((RuntimeError.Utf8Error.asI32, 0, 0), rt)

/-- Models `ToBase58String` of src/native/src/env/utils.rs: read a memory
slice, base58-encode it, write the encoding via the write protocol. -/
def ToBase58String (rt : Runtime) (offsetBytes lengthBytes : Nat) :
    Option ((Int × Int × Int) × Runtime) :=
  match rt.memory with
  | none => some ((RuntimeError.MemoryNotFound.asI32, 0, 0), rt)
  | some mem =>
    match readBytes mem offsetBytes lengthBytes with
    | none => none
    | some bytes =>
      let w := writeMemory mem rt.heapBase (toBase58 bytes)
      some (w.2, { rt with memory := some w.1 })

/-- Models a `wasmi::core::Value` produced by a callee (spec section 6: a guest
function returns at most one scalar result of one of the wasm value types). -/
inductive WValue
  | I32 : Int → WValue
  | I64 : Int → WValue
  | F32 : Nat → WValue
  | F64 : Nat → WValue
deriving DecidableEq

/-- Big-endian fixed-width byte encoding of a natural number. -/
def natToBytesFixed (width n : Nat) : List Nat :=
  (List.range width).map (fun i => n / 256 ^ (width - 1 - i) % 256)

/-- Big-endian fixed-width two's-complement byte encoding of an integer. -/
def intToBytesFixed (width : Nat) (v : Int) : List Nat :=
  natToBytesFixed width ((v % ((2 : Int) ^ (8 * width))).toNat)

/-- Modelled from the spec: the input-data wire format of spec section 6 (the
serializer lives in data_entry.rs, not under src/): each record is a 1-byte
type tag followed by 8 bytes for Integer, 4 bytes for Boolean, and a 4-byte
length prefix plus payload for Binary/String. -/
def serializeEntry : DataEntry → List Nat
  | DataEntry.Integer v => 0 :: intToBytesFixed 8 v
  | DataEntry.Boolean v => 1 :: intToBytesFixed 4 v
  | DataEntry.Binary b => 2 :: (natToBytesFixed 4 b.length ++ b)
  | DataEntry.String s => 3 :: (natToBytesFixed 4 s.length ++ s)

/-- Serialization of a whole argument queue, in staging order. -/
def serializeArgs (l : List DataEntry) : List Nat :=
  l.foldr (fun e acc => serializeEntry e ++ acc) []

/-- Modelled from the spec: `Runtime::args_and_payments` lives in runtime.rs,
not under src/.  Spec section 4.3 step 4: "Atomically drain the current
Execution Context's staged args and payments — this is the one point where
staged state is consumed"; the args are serialized into the input-data wire
format. -/
def argsAndPayments (rt : Runtime) :
    (List Nat × List (List Nat × Int)) × Runtime :=
  ((serializeArgs rt.args, rt.payments), { rt with args := [], payments := [] })

/-- Modelled from the spec: the call stack (stack.rs) is not under src/.  Spec
sections 4.3 and 6 describe it through three synchronous fallible operations:
`get_bytecode` (the external registry resolve), `add_payments` (the settlement
hook) and `call` (push a frame, run the named function of the callee with the
drained input data, pop the frame, return the callee result values or a
sentinel).  Each is modelled as an oracle function; errors are the sentinel
integers the source obtains from `error.as_i32()`. -/
structure StackModel where
  getBytecode : List Nat → Except Int (List Nat)
  addPayments : List Nat → List (List Nat × Int) → Except Int Unit
  call : List Nat → List Nat → List Nat → List Nat → Except Int (List WValue)

/-- Models `CallContract` of src/native/src/env/call_contract.rs: resolve the
contract identifier from memory, fetch its bytecode, UTF-8 decode the function
name, drain the staged args and payments, apply the payments, dispatch the
call, and validate that the callee returned exactly one `I32` value, which
becomes the status; any other result shape is `InvalidResult`. -/
def CallContract (stack : StackModel) (rt : Runtime)
    (offsetContractId lengthContractId offsetFuncName lengthFuncName : Nat) :
    Option (Int × Runtime) :=
  match rt.memory with
  | none => some (RuntimeError.MemoryNotFound.asI32, rt)
  | some mem =>
    match readBytes mem offsetContractId lengthContractId with
    | none => none
    | some contractId =>
      match stack.getBytecode contractId with
      | Except.error e => some (e, rt)
      | Except.ok bytecode =>
        match readBytes mem offsetFuncName lengthFuncName with
        | none => none
        | some funcNameBytes =>
          if validUtf8 funcNameBytes then
            match argsAndPayments rt with
            | ((inputData, payments), rt1) =>
              match stack.addPayments contractId payments with
              | Except.error e => some (e, rt1)
              | Except.ok _ =>
                match stack.call contractId bytecode funcNameBytes inputData with
                | Except.ok result =>
                  match result with
                  | [v0] =>
                    match v0 with
                    | WValue.I32 v => some (v, rt1)
                    | _ => some (RuntimeError.InvalidResult.asI32, rt1)
                  | _ => some (RuntimeError.InvalidResult.asI32, rt1)
                | Except.error e => some (e, rt1)
          else some (RuntimeError.Utf8Error.asI32, rt)

/-! Helper lemmas about big-endian digit lists. -/

theorem bytesToNatBE_reverse (b : Nat) (L : List Nat) :
    bytesToNatBE b L.reverse = Nat.ofDigits b L := by
  induction L with
  | nil => rfl
  | cons d L ih =>
    have hrev : (d :: L).reverse = L.reverse ++ [d] := by simp
    rw [hrev]
    unfold bytesToNatBE at *
    rw [List.foldl_append]
    simp only [List.foldl_cons, List.foldl_nil, Nat.ofDigits_cons, ih]
    ring

theorem natToDigitsGo_eq_digits (base : Nat) (hb : 1 < base) :
    ∀ fuel n, n ≤ fuel → natToDigitsGo base fuel n = (Nat.digits base n).reverse := by
  intro fuel
  induction fuel with
  | zero =>
    intro n hn
    have hn0 : n = 0 := Nat.le_zero.mp hn
    subst hn0
    simp [natToDigitsGo]
  | succ f ih =>
    intro n hn
    by_cases h0 : n = 0
    · subst h0
      simp [natToDigitsGo]
    · unfold natToDigitsGo
      rw [if_neg h0]
      have hdiv : n / base ≤ f := by
        have hlt : n / base < n := Nat.div_lt_self (Nat.pos_of_ne_zero h0) hb
        omega
      rw [ih (n / base) hdiv, Nat.digits_def' hb (Nat.pos_of_ne_zero h0),
        List.reverse_cons]

theorem natToBytesBE_eq_digits (b n : Nat) (hb : 1 < b) :
    natToBytesBE b n = (Nat.digits b n).reverse :=
  natToDigitsGo_eq_digits b hb n n (Nat.le_refl n)

theorem bytesToNatBE_natToBytesBE (b n : Nat) (hb : 1 < b) :
    bytesToNatBE b (natToBytesBE b n) = n := by
  rw [natToBytesBE_eq_digits b n hb, bytesToNatBE_reverse]
  exact Nat.ofDigits_digits b n

theorem natToBytesBE_bytesToNatBE (b : Nat) (hb : 1 < b) (L : List Nat)
    (hL : ∀ d ∈ L, d < b) (hhead : ∀ d, L.head? = some d → d ≠ 0) :
    natToBytesBE b (bytesToNatBE b L) = L := by
  have h1 : bytesToNatBE b L = Nat.ofDigits b L.reverse := by
    have h2 := bytesToNatBE_reverse b L.reverse
    rwa [List.reverse_reverse] at h2
  rw [h1]
  rw [natToBytesBE_eq_digits b _ hb]
  rw [Nat.digits_ofDigits b hb L.reverse
    (fun l hl => hL l (List.mem_reverse.mp hl))
    (fun h => by
      rw [List.getLast_reverse h]
      apply hhead
      exact List.head?_eq_head _)]
  exact List.reverse_reverse L

theorem natToBytesBE_head_ne_zero (b v : Nat) (hb : 1 < b) :
    ∀ d, (natToBytesBE b v).head? = some d → d ≠ 0 := by
  intro d hd
  rw [natToBytesBE_eq_digits b v hb] at hd
  rw [List.head?_reverse] at hd
  have hne : Nat.digits b v ≠ [] := by
    intro h
    rw [h] at hd
    simp at hd
  rw [List.getLast?_eq_getLast _ hne] at hd
  have hv : v ≠ 0 := Nat.digits_ne_nil_iff_ne_zero.mp hne
  have hlast := Nat.getLast_digit_ne_zero b hv
  have hdd := Option.some.inj hd
  exact hdd ▸ hlast

theorem natToBytesBE_lt (b v : Nat) (hb : 1 < b) :
    ∀ d ∈ natToBytesBE b v, d < b := by
  intro d hd
  rw [natToBytesBE_eq_digits b v hb] at hd
  exact Nat.digits_lt_base hb (List.mem_reverse.mp hd)

/-! Helper lemmas about leading-byte counting. -/

theorem takeWhile_eq_replicate (x : Nat) (l : List Nat) :
    l.takeWhile (fun b => b == x) = List.replicate (leadCount x l) x := by
  rw [List.eq_replicate_iff]
  refine ⟨rfl, ?_⟩
  intro b hb
  have hp := List.mem_takeWhile_imp hb
  simpa using hp

theorem leadCount_decomp (x : Nat) (l : List Nat) :
    l = List.replicate (leadCount x l) x ++ l.dropWhile (fun b => b == x) := by
  conv_lhs => rw [← List.takeWhile_append_dropWhile (fun b => b == x) l]
  rw [takeWhile_eq_replicate]

theorem dropWhile_head_ne (x : Nat) (l : List Nat) :
    ∀ d, (l.dropWhile (fun b => b == x)).head? = some d → d ≠ x := by
  intro d hd
  have h := List.head?_dropWhile_not (fun b => b == x) l
  rw [hd] at h
  simpa using h

theorem leadCount_replicate_append (x k : Nat) (t : List Nat)
    (ht : ∀ d, t.head? = some d → d ≠ x) :
    leadCount x (List.replicate k x ++ t) = k := by
  induction k with
  | zero =>
    simp only [List.replicate, List.nil_append]
    unfold leadCount
    cases t with
    | nil => rfl
    | cons d t' =>
      have hdx : d ≠ x := ht d rfl
      simp [List.takeWhile_cons, hdx]
  | succ n ih =>
    unfold leadCount at *
    simp only [List.replicate_succ, List.cons_append, List.takeWhile_cons,
      beq_self_eq_true, if_true, List.length_cons]
    omega

theorem bytesToNatBE_replicate_zero (b k : Nat) (t : List Nat) :
    bytesToNatBE b (List.replicate k 0 ++ t) = bytesToNatBE b t := by
  induction k with
  | zero => simp
  | succ n ih =>
    unfold bytesToNatBE at *
    simpa [List.replicate_succ] using ih

/-! Decidable facts about the base58 alphabet. -/

theorem base58Alphabet_getD_mem :
    ∀ d, d < 58 → base58Alphabet.getD d 0 ∈ base58Alphabet := by decide

theorem base58Alphabet_indexOf_getD :
    ∀ d, d < 58 → base58Alphabet.indexOf (base58Alphabet.getD d 0) = d := by decide

theorem base58Alphabet_getD_ne_49 :
    ∀ d, d < 58 → d ≠ 0 → base58Alphabet.getD d 0 ≠ 49 := by decide

theorem base58Alphabet_getD_indexOf :
    ∀ c ∈ base58Alphabet, base58Alphabet.getD (base58Alphabet.indexOf c) 0 = c := by
  decide

theorem base58Alphabet_indexOf_ne_zero :
    ∀ c ∈ base58Alphabet, c ≠ 49 → base58Alphabet.indexOf c ≠ 0 := by decide

theorem base58Alphabet_indexOf_49 : base58Alphabet.indexOf 49 = 0 := by decide

theorem base58Alphabet_mem_49 : 49 ∈ base58Alphabet := by decide

theorem base58Alphabet_indexOf_lt (c : Nat) (h : c ∈ base58Alphabet) :
    base58Alphabet.indexOf c < 58 := by
  have hlen : base58Alphabet.length = 58 := by decide
  have hlt := List.indexOf_lt_length.mpr h
  omega

/-! Round-trip lemmas for the base58 transcoding. -/

theorem fromBase58_toBase58 (x : List Nat) (hx : ∀ b ∈ x, b < 256) :
    fromBase58 (toBase58 x) = some x := by
  obtain ⟨k, t, hxdec, hthead⟩ :
      ∃ k t, x = List.replicate k 0 ++ t ∧ ∀ d, t.head? = some d → d ≠ 0 :=
    ⟨leadCount 0 x, x.dropWhile (fun b => b == 0), leadCount_decomp 0 x,
      dropWhile_head_ne 0 x⟩
  subst hxdec
  have hv : bytesToNatBE 256 (List.replicate k 0 ++ t) = bytesToNatBE 256 t :=
    bytesToNatBE_replicate_zero 256 k t
  have hlead : leadCount 0 (List.replicate k 0 ++ t) = k :=
    leadCount_replicate_append 0 k t hthead
  have htb : toBase58 (List.replicate k 0 ++ t) =
      List.replicate k 49 ++
        (natToBytesBE 58 (bytesToNatBE 256 t)).map (fun d => base58Alphabet.getD d 0) := by
    unfold toBase58
    rw [hlead, hv]
  rw [htb]
  have hds58 : ∀ d ∈ natToBytesBE 58 (bytesToNatBE 256 t), d < 58 :=
    natToBytesBE_lt 58 _ (by norm_num)
  have hall : (List.replicate k 49 ++
      (natToBytesBE 58 (bytesToNatBE 256 t)).map (fun d => base58Alphabet.getD d 0)).all
      (fun c => base58Alphabet.contains c) = true := by
    rw [List.all_eq_true]
    intro c hc
    rw [List.mem_append] at hc
    rcases hc with hc | hc
    · have hc49 : c = 49 := (List.mem_replicate.mp hc).2
      subst hc49
      exact List.elem_iff.mpr base58Alphabet_mem_49
    · rw [List.mem_map] at hc
      obtain ⟨d, hd, rfl⟩ := hc
      exact List.elem_iff.mpr (base58Alphabet_getD_mem d (hds58 d hd))
  have hdshead : ∀ d0,
      ((natToBytesBE 58 (bytesToNatBE 256 t)).map
        (fun d => base58Alphabet.getD d 0)).head? = some d0 → d0 ≠ 49 := by
    intro d0 hd0
    rw [List.head?_map] at hd0
    cases he : (natToBytesBE 58 (bytesToNatBE 256 t)).head? with
    | none => rw [he] at hd0; simp at hd0
    | some e =>
      rw [he] at hd0
      have heq : base58Alphabet.getD e 0 = d0 := Option.some.inj hd0
      have he0 : e ≠ 0 := natToBytesBE_head_ne_zero 58 _ (by norm_num) e he
      have he58 : e < 58 := hds58 e (List.mem_of_mem_head? he)
      rw [← heq]
      exact base58Alphabet_getD_ne_49 e he58 he0
  have hleadds : leadCount 49 (List.replicate k 49 ++
      (natToBytesBE 58 (bytesToNatBE 256 t)).map (fun d => base58Alphabet.getD d 0)) = k :=
    leadCount_replicate_append 49 k _ hdshead
  have hmapidx : (List.replicate k 49 ++
      (natToBytesBE 58 (bytesToNatBE 256 t)).map (fun d => base58Alphabet.getD d 0)).map
        (fun c => base58Alphabet.indexOf c) =
      List.replicate k 0 ++ natToBytesBE 58 (bytesToNatBE 256 t) := by
    rw [List.map_append, List.map_replicate, base58Alphabet_indexOf_49, List.map_map]
    congr 1
    have hcomp : ∀ d ∈ natToBytesBE 58 (bytesToNatBE 256 t),
        ((fun c => base58Alphabet.indexOf c) ∘ (fun d => base58Alphabet.getD d 0)) d =
          id d := by
      intro d hd
      exact base58Alphabet_indexOf_getD d (hds58 d hd)
    rw [List.map_congr_left hcomp, List.map_id]
  have hval : bytesToNatBE 58
      (List.replicate k 0 ++ natToBytesBE 58 (bytesToNatBE 256 t)) =
      bytesToNatBE 256 t := by
    rw [bytesToNatBE_replicate_zero,
      bytesToNatBE_natToBytesBE 58 (bytesToNatBE 256 t) (by norm_num)]
  have htback : natToBytesBE 256 (bytesToNatBE 256 t) = t := by
    apply natToBytesBE_bytesToNatBE 256 (by norm_num) t
    · intro d hd
      exact hx d (List.mem_append.mpr (Or.inr hd))
    · exact hthead
  unfold fromBase58
  rw [if_pos hall, hleadds, hmapidx, hval, htback]

theorem toBase58_fromBase58 (s y : List Nat) (h : fromBase58 s = some y) :
    toBase58 y = s := by
  unfold fromBase58 at h
  by_cases hall : s.all (fun c => base58Alphabet.contains c) = true
  case neg => rw [if_neg hall] at h; exact absurd h (by simp)
  rw [if_pos hall] at h
  have hy := (Option.some.inj h).symm
  subst hy
  obtain ⟨k, u, hsdec, huhead⟩ :
      ∃ k u, s = List.replicate k 49 ++ u ∧ ∀ d, u.head? = some d → d ≠ 49 :=
    ⟨leadCount 49 s, s.dropWhile (fun b => b == 49), leadCount_decomp 49 s,
      dropWhile_head_ne 49 s⟩
  subst hsdec
  have hleadk : leadCount 49 (List.replicate k 49 ++ u) = k :=
    leadCount_replicate_append 49 k u huhead
  have humem : ∀ c ∈ u, c ∈ base58Alphabet := by
    intro c hc
    exact List.elem_iff.mp
      (List.all_eq_true.mp hall c (List.mem_append.mpr (Or.inr hc)))
  have hmap : (List.replicate k 49 ++ u).map (fun c => base58Alphabet.indexOf c) =
      List.replicate k 0 ++ u.map (fun c => base58Alphabet.indexOf c) := by
    rw [List.map_append, List.map_replicate, base58Alphabet_indexOf_49]
  have hes58 : ∀ d ∈ u.map (fun c => base58Alphabet.indexOf c), d < 58 := by
    intro d hd
    rw [List.mem_map] at hd
    obtain ⟨c, hc, rfl⟩ := hd
    exact base58Alphabet_indexOf_lt c (humem c hc)
  have heshead : ∀ d,
      (u.map (fun c => base58Alphabet.indexOf c)).head? = some d → d ≠ 0 := by
    intro d hd
    rw [List.head?_map] at hd
    cases hu : u.head? with
    | none => rw [hu] at hd; simp at hd
    | some c =>
      rw [hu] at hd
      have heq : base58Alphabet.indexOf c = d := Option.some.inj hd
      have hc49 : c ≠ 49 := huhead c hu
      have hcmem : c ∈ base58Alphabet := humem c (List.mem_of_mem_head? hu)
      rw [← heq]
      exact base58Alphabet_indexOf_ne_zero c hcmem hc49
  have hback : natToBytesBE 58
      (bytesToNatBE 58 (u.map (fun c => base58Alphabet.indexOf c))) =
      u.map (fun c => base58Alphabet.indexOf c) :=
    natToBytesBE_bytesToNatBE 58 (by norm_num) _ hes58 heshead
  rw [hleadk, hmap, bytesToNatBE_replicate_zero]
  unfold toBase58
  rw [leadCount_replicate_append 0 k _
      (natToBytesBE_head_ne_zero 256 _ (by norm_num)),
    bytesToNatBE_replicate_zero,
    bytesToNatBE_natToBytesBE 256 _ (by norm_num), hback,
    List.map_map]
  congr 1
  have hcomp : ∀ c ∈ u,
      ((fun d => base58Alphabet.getD d 0) ∘ (fun c => base58Alphabet.indexOf c)) c =
        id c := by
    intro c hc
    exact base58Alphabet_getD_indexOf c (humem c hc)
  rw [List.map_congr_left hcomp, List.map_id]

/-! Helper lemmas about the memory accessor model. -/

theorem readBytes_inbounds (mem : List Nat) (o l : Nat) (h : o + l ≤ mem.length) :
    readBytes mem o l = some ((mem.drop o).take l) := by
  unfold readBytes
  rw [if_pos h]

theorem readBytes_oob (mem : List Nat) (o l : Nat) (h : mem.length < o + l) :
    readBytes mem o l = none := by
  unfold readBytes
  rw [if_neg (by omega)]

theorem length_slice (mem : List Nat) (o l : Nat) (h : o + l ≤ mem.length) :
    ((mem.drop o).take l).length = l := by
  rw [List.length_take, List.length_drop]
  omega

/-! Claim theorems. -/

/-- C9: for all in-bounds memory regions a and b, BytesEquals is symmetric
(`BytesEquals(a,b) == BytesEquals(b,a)`) and reflexive (`BytesEquals(a,a)`
returns true), and two regions of differing lengths compare unequal with
status 0 and no fault. -/
theorem claim_c9_bytes_equals_relational (rt : Runtime) (mem : List Nat)
    (ol ll oro lr : Nat) (hmem : rt.memory = some mem)
    (hl : ol + ll ≤ mem.length) (hr : oro + lr ≤ mem.length) :
    BytesEquals rt ol ll oro lr = BytesEquals rt oro lr ol ll ∧
    BytesEquals rt ol ll ol ll = some (0, 1) ∧
    (ll ≠ lr → BytesEquals rt ol ll oro lr = some (0, 0)) := by
  have hcomp : ∀ o1 l1 o2 l2, o1 + l1 ≤ mem.length → o2 + l2 ≤ mem.length →
      BytesEquals rt o1 l1 o2 l2 =
        some (0, if (mem.drop o1).take l1 = (mem.drop o2).take l2 then 1 else 0) := by
    intro o1 l1 o2 l2 h1 h2
    unfold BytesEquals
    simp only [hmem, readBytes_inbounds mem o1 l1 h1, readBytes_inbounds mem o2 l2 h2]
  refine ⟨?_, ?_, ?_⟩
  · rw [hcomp ol ll oro lr hl hr, hcomp oro lr ol ll hr hl]
    by_cases he : (mem.drop ol).take ll = (mem.drop oro).take lr
    · rw [if_pos he, if_pos he.symm]
    · rw [if_neg he, if_neg (fun h => he h.symm)]
  · rw [hcomp ol ll ol ll hl hl, if_pos rfl]
  · intro hne
    rw [hcomp ol ll oro lr hl hr, if_neg ?_]
    intro he
    have h1 := length_slice mem ol ll hl
    have h2 := length_slice mem oro lr hr
    rw [he, h2] at h1
    exact hne h1.symm

/-- Witness for C9 at memory [1, 2, 1], regions (0,1) and (1,2). -/
theorem claim_c9_bytes_equals_relational_witness :
    BytesEquals ⟨some [1, 2, 1], 0, [], []⟩ 0 1 1 2 =
      BytesEquals ⟨some [1, 2, 1], 0, [], []⟩ 1 2 0 1 ∧
    BytesEquals ⟨some [1, 2, 1], 0, [], []⟩ 0 1 0 1 = some (0, 1) ∧
    ((1 : Nat) ≠ 2 →
      BytesEquals ⟨some [1, 2, 1], 0, [], []⟩ 0 1 1 2 = some (0, 0)) :=
  claim_c9_bytes_equals_relational ⟨some [1, 2, 1], 0, [], []⟩ [1, 2, 1]
    0 1 1 2 rfl (by decide) (by decide)

/-- C8: for all in-bounds memory regions a and b, Concat writes the byte
sequence a ++ b with order preserved — the first len(a) bytes of the written
payload reproduce a, the remainder reproduces b — and the returned length
equals len(a) + len(b), with status 0 and the write at the heap base. -/
theorem claim_c8_concat_order (rt : Runtime) (mem : List Nat)
    (ol ll oro lr : Nat) (hmem : rt.memory = some mem)
    (hl : ol + ll ≤ mem.length) (hr : oro + lr ≤ mem.length) :
    Concat rt ol ll oro lr =
      some ((0, (rt.heapBase : Int), ((ll + lr : Nat) : Int)),
        { rt with memory := some (writeMemory mem rt.heapBase
            ((mem.drop ol).take ll ++ (mem.drop oro).take lr)).1 }) ∧
    ((mem.drop ol).take ll ++ (mem.drop oro).take lr).take ll =
      (mem.drop ol).take ll ∧
    ((mem.drop ol).take ll ++ (mem.drop oro).take lr).drop ll =
      (mem.drop oro).take lr := by
  have h1 := length_slice mem ol ll hl
  have h2 := length_slice mem oro lr hr
  refine ⟨?_, ?_, ?_⟩
  · unfold Concat
    simp only [hmem, readBytes_inbounds mem ol ll hl,
      readBytes_inbounds mem oro lr hr, writeMemory,
      List.length_append, h1, h2]
  · have h3 := List.take_left ((mem.drop ol).take ll) ((mem.drop oro).take lr)
    rwa [h1] at h3
  · have h3 := List.drop_left ((mem.drop ol).take ll) ((mem.drop oro).take lr)
    rwa [h1] at h3

/-- Witness for C8 at memory [3, 4, 5], left region (0,1), right region (1,2). -/
theorem claim_c8_concat_order_witness :
    Concat ⟨some [3, 4, 5], 3, [], []⟩ 0 1 1 2 =
      some ((0, ((3 : Nat) : Int), (((1 + 2 : Nat) : Nat) : Int)),
        { (⟨some [3, 4, 5], 3, [], []⟩ : Runtime) with
          memory := some (writeMemory [3, 4, 5] 3
            (([3, 4, 5].drop 0).take 1 ++ ([3, 4, 5].drop 1).take 2)).1 }) ∧
    (([3, 4, 5].drop 0).take 1 ++ ([3, 4, 5].drop 1).take 2).take 1 =
      ([3, 4, 5].drop 0).take 1 ∧
    (([3, 4, 5].drop 0).take 1 ++ ([3, 4, 5].drop 1).take 2).drop 1 =
      ([3, 4, 5].drop 1).take 2 :=
  claim_c8_concat_order ⟨some [3, 4, 5], 3, [], []⟩ [3, 4, 5] 0 1 1 2 rfl
    (by decide) (by decide)

theorem paymentsPush_accumulate (p : List (List Nat × Int)) (asset : List Nat)
    (v w : Int) :
    paymentsPush (paymentsPush p asset v) asset w = paymentsPush p asset (v + w) := by
  induction p with
  | nil => simp [paymentsPush, add_assoc]
  | cons hd rest ih =>
    obtain ⟨a, x⟩ := hd
    by_cases hax : a = asset
    · subst hax
      simp [paymentsPush, add_assoc]
    · simp [paymentsPush, hax, ih]

/-- C5: two CallPayment declarations for the same asset accumulate by
summation into one ledger entry: declaring amount 3 then amount 4 for asset
"X" (byte 88) yields the single entry ([88], 7), which is exactly the ledger
drained by the next CallContract and handed to the settlement hook.  The last
conjunct is the general accumulation law of the ledger push. -/
theorem claim_c5_payment_accumulation (rt : Runtime)
    (hmem : rt.memory = some [88]) (hpay : rt.payments = []) :
    ∃ rt1 rt2, CallPayment rt 0 1 3 = some (0, rt1) ∧
      CallPayment rt1 0 1 4 = some (0, rt2) ∧
      rt2.payments = [([88], 7)] ∧
      (argsAndPayments rt2).1.2 = [([88], 7)] ∧
      (argsAndPayments rt2).2.payments = [] ∧
      (∀ stack : StackModel, ∀ e : Int,
        stack.getBytecode [88] = Except.ok [] →
        stack.addPayments [88] [([88], 7)] = Except.error e →
        CallContract stack rt2 0 1 0 0 =
          some (e, { rt2 with args := [], payments := [] })) ∧
      (∀ p asset v w,
        paymentsPush (paymentsPush p asset v) asset w =
          paymentsPush p asset (v + w)) := by
  refine ⟨{ rt with payments := [([88], 3)] },
    { rt with payments := [([88], 7)] }, ?_, ?_, rfl, rfl, rfl, ?_,
    paymentsPush_accumulate⟩
  · unfold CallPayment
    simp only [hmem, readBytes_inbounds [88] 0 1 (by decide)]
    rw [hpay]
    rfl
  · unfold CallPayment
    simp only [hmem, readBytes_inbounds [88] 0 1 (by decide)]
    rfl
  · intro stack e hbc hset
    have hslice : List.take 1 (List.drop 0 ([88] : List Nat)) = [88] := rfl
    unfold CallContract
    simp only [hmem, readBytes_inbounds [88] 0 1 (by decide),
      readBytes_inbounds [88] 0 0 (by decide), List.take_zero, hslice, hbc]
    rw [if_pos (by rfl : validUtf8 [] = true)]
    simp only [argsAndPayments, hset]

/-- Witness for C5 at an initial runtime with memory [88] and empty ledger. -/
theorem claim_c5_payment_accumulation_witness :
    ∃ rt1 rt2, CallPayment ⟨some [88], 0, [], []⟩ 0 1 3 = some (0, rt1) ∧
      CallPayment rt1 0 1 4 = some (0, rt2) ∧
      rt2.payments = [([88], 7)] ∧
      (argsAndPayments rt2).1.2 = [([88], 7)] ∧
      (argsAndPayments rt2).2.payments = [] ∧
      (∀ stack : StackModel, ∀ e : Int,
        stack.getBytecode [88] = Except.ok [] →
        stack.addPayments [88] [([88], 7)] = Except.error e →
        CallContract stack rt2 0 1 0 0 =
          some (e, { rt2 with args := [], payments := [] })) ∧
      (∀ p asset v w,
        paymentsPush (paymentsPush p asset v) asset w =
          paymentsPush p asset (v + w)) :=
  claim_c5_payment_accumulation ⟨some [88], 0, [], []⟩ rfl rfl

/-- C2 counterexample: at memory [255] (not valid UTF-8) and the in-bounds
region (0,1), CallArgString returns status 0 and appends a String entry with
the raw bytes, instead of returning the Utf8Error code and appending nothing
as the claim states: the source performs no UTF-8 validation. -/
theorem claim_c2_counterexample :
    CallArgString ⟨some [255], 0, [], []⟩ 0 1 =
      some (0, ⟨some [255], 0, [DataEntry.String [255]], []⟩) ∧
    validUtf8 [255] = false ∧
    CallArgString ⟨some [255], 0, [], []⟩ 0 1 ≠
      some (RuntimeError.Utf8Error.asI32, ⟨some [255], 0, [], []⟩) := by
  exact ⟨rfl, rfl, by decide⟩

/-- C2 (amended): for every in-bounds (offset, length), CallArgString performs
no UTF-8 validation: it returns 0 and appends one String entry carrying the
raw slice bytes, valid UTF-8 or not; CallArgBinary behaves identically with a
Binary entry. -/
theorem claim_c2_amended_no_utf8_validation (rt : Runtime) (mem : List Nat)
    (o l : Nat) (hmem : rt.memory = some mem) (h : o + l ≤ mem.length) :
    CallArgString rt o l =
      some (0, { rt with args := rt.args ++ [DataEntry.String ((mem.drop o).take l)] }) ∧
    CallArgBinary rt o l =
      some (0, { rt with args := rt.args ++ [DataEntry.Binary ((mem.drop o).take l)] }) := by
  constructor
  · unfold CallArgString
    simp only [hmem, readBytes_inbounds mem o l h]
  · unfold CallArgBinary
    simp only [hmem, readBytes_inbounds mem o l h]

/-- Witness for C2 (amended) at memory [255], region (0,1). -/
theorem claim_c2_amended_no_utf8_validation_witness :
    CallArgString ⟨some [255], 0, [], []⟩ 0 1 =
      some (0, ⟨some [255], 0, [DataEntry.String [255]], []⟩) ∧
    CallArgBinary ⟨some [255], 0, [], []⟩ 0 1 =
      some (0, ⟨some [255], 0, [DataEntry.Binary [255]], []⟩) :=
  claim_c2_amended_no_utf8_validation ⟨some [255], 0, [], []⟩ [255] 0 1 rfl
    (by decide)

/-- C3 counterexample: at memory [72] and the out-of-bounds region (0,2),
CallArgString does not return the MemoryNotFound code — the slice indexing
panics (modelled as `none`), so no status at all reaches the guest. -/
theorem claim_c3_counterexample :
    CallArgString ⟨some [72], 0, [], []⟩ 0 2 = none ∧
    ∀ rt2 : Runtime, CallArgString ⟨some [72], 0, [], []⟩ 0 2 ≠
      some (RuntimeError.MemoryNotFound.asI32, rt2) := by
  refine ⟨rfl, fun rt2 h => ?_⟩
  exact Option.noConfusion h

/-- C3 (amended): for every in-bounds (offset, length) pair, CallArgString and
CallArgBinary append exactly one DataEntry whose content equals
memory[offset..offset+length] and return 0; when no memory is attached they
return the MemoryNotFound code leaving the args queue unchanged; for an
out-of-bounds pair they panic (modelled as `none`) rather than returning a
code, likewise leaving the args queue unchanged. -/
theorem claim_c3_amended_arg_staging (rt : Runtime) (mem : List Nat)
    (o l : Nat) :
    (rt.memory = some mem → o + l ≤ mem.length →
      CallArgBinary rt o l =
        some (0, { rt with args := rt.args ++ [DataEntry.Binary ((mem.drop o).take l)] }) ∧
      CallArgString rt o l =
        some (0, { rt with args := rt.args ++ [DataEntry.String ((mem.drop o).take l)] })) ∧
    (rt.memory = none →
      CallArgBinary rt o l = some (RuntimeError.MemoryNotFound.asI32, rt) ∧
      CallArgString rt o l = some (RuntimeError.MemoryNotFound.asI32, rt)) ∧
    (rt.memory = some mem → mem.length < o + l →
      CallArgBinary rt o l = none ∧ CallArgString rt o l = none) := by
  refine ⟨fun hmem h => ?_, fun hmem => ?_, fun hmem h => ?_⟩
  · constructor
    · unfold CallArgBinary
      simp only [hmem, readBytes_inbounds mem o l h]
    · unfold CallArgString
      simp only [hmem, readBytes_inbounds mem o l h]
  · constructor
    · unfold CallArgBinary
      simp only [hmem]
    · unfold CallArgString
      simp only [hmem]
  · constructor
    · unfold CallArgBinary
      simp only [hmem, readBytes_oob mem o l h]
    · unfold CallArgString
      simp only [hmem, readBytes_oob mem o l h]

/-- Witness for C3 (amended): the in-bounds case at memory [9] region (0,1),
the missing-memory case, and the out-of-bounds case at region (0,2). -/
theorem claim_c3_amended_arg_staging_witness :
    CallArgBinary ⟨some [9], 5, [], []⟩ 0 1 =
      some (0, ⟨some [9], 5, [DataEntry.Binary [9]], []⟩) ∧
    CallArgBinary ⟨none, 0, [], []⟩ 0 1 =
      some (RuntimeError.MemoryNotFound.asI32, ⟨none, 0, [], []⟩) ∧
    CallArgString ⟨some [9], 5, [], []⟩ 0 2 = none :=
  ⟨((claim_c3_amended_arg_staging ⟨some [9], 5, [], []⟩ [9] 0 1).1 rfl
      (by decide)).1,
   ((claim_c3_amended_arg_staging ⟨none, 0, [], []⟩ [] 0 1).2.1 rfl).1,
   ((claim_c3_amended_arg_staging ⟨some [9], 5, [], []⟩ [9] 0 2).2.2 rfl
      (by decide)).2⟩

/-- C1 counterexample: out-of-bounds offset/length pairs do not yield an error
status — the unchecked slice indexing panics and aborts the host (modelled as
`none`): with memory of size 0 attached, CallArgBinary at (0,1) traps, as do
BytesEquals and Concat at out-of-bounds regions, refuting the claimed
totality. -/
theorem claim_c1_counterexample :
    CallArgBinary ⟨some [], 0, [], []⟩ 0 1 = none ∧
    BytesEquals ⟨some [], 7, [], []⟩ 0 0 0 1 = none ∧
    Concat ⟨some [2], 1, [], []⟩ 0 1 1 1 = none ∧
    ∀ s : Int, ∀ rt2 : Runtime,
      CallArgBinary ⟨some [], 0, [], []⟩ 0 1 ≠ some (s, rt2) := by
  exact ⟨rfl, rfl, rfl, fun s rt2 h => Option.noConfusion h⟩

/-- C1 (amended): CallArgInt and CallArgBool are total with no failure mode;
every other host function returns the MemoryNotFound status when no memory is
attached, and returns a guest-observable status for every access whose
offset+length ranges lie within the linear-memory size; an out-of-bounds
offset/length pair instead causes a host panic (a trap), not an error
status. -/
theorem claim_c1_amended_totality :
    (∀ rt o l, rt.memory = none →
      CallArgBinary rt o l = some (RuntimeError.MemoryNotFound.asI32, rt)) ∧
    (∀ rt o l, rt.memory = none →
      CallArgString rt o l = some (RuntimeError.MemoryNotFound.asI32, rt)) ∧
    (∀ rt o l a, rt.memory = none →
      CallPayment rt o l a = some (RuntimeError.MemoryNotFound.asI32, rt)) ∧
    (∀ rt o1 l1 o2 l2, rt.memory = none →
      BytesEquals rt o1 l1 o2 l2 = some (RuntimeError.MemoryNotFound.asI32, 0)) ∧
    (∀ rt o1 l1 o2 l2, rt.memory = none →
      StringEquals rt o1 l1 o2 l2 = some (RuntimeError.MemoryNotFound.asI32, 0)) ∧
    (∀ rt o l, rt.memory = none →
      Base58 rt o l = some ((RuntimeError.MemoryNotFound.asI32, 0, 0), rt)) ∧
    (∀ rt o l, rt.memory = none →
      ToBase58String rt o l = some ((RuntimeError.MemoryNotFound.asI32, 0, 0), rt)) ∧
    (∀ rt o1 l1 o2 l2, rt.memory = none →
      Concat rt o1 l1 o2 l2 = some ((RuntimeError.MemoryNotFound.asI32, 0, 0), rt)) ∧
    (∀ stack rt o1 l1 o2 l2, rt.memory = none →
      CallContract stack rt o1 l1 o2 l2 =
        some (RuntimeError.MemoryNotFound.asI32, rt)) ∧
    (∀ rt mem o l a, rt.memory = some mem → o + l ≤ mem.length →
      (CallArgBinary rt o l).isSome = true ∧
      (CallArgString rt o l).isSome = true ∧
      (CallPayment rt o l a).isSome = true ∧
      (Base58 rt o l).isSome = true ∧
      (ToBase58String rt o l).isSome = true) ∧
    (∀ rt mem o1 l1 o2 l2, rt.memory = some mem → o1 + l1 ≤ mem.length →
      o2 + l2 ≤ mem.length →
      (BytesEquals rt o1 l1 o2 l2).isSome = true ∧
      (StringEquals rt o1 l1 o2 l2).isSome = true ∧
      (Concat rt o1 l1 o2 l2).isSome = true) ∧
    (∀ stack rt mem o1 l1 o2 l2, rt.memory = some mem → o1 + l1 ≤ mem.length →
      o2 + l2 ≤ mem.length →
      (CallContract stack rt o1 l1 o2 l2).isSome = true) := by
  refine ⟨?_, ?_, ?_, ?_, ?_, ?_, ?_, ?_, ?_, ?_, ?_, ?_⟩
  · intro rt o l h
    unfold CallArgBinary
    simp only [h]
  · intro rt o l h
    unfold CallArgString
    simp only [h]
  · intro rt o l a h
    unfold CallPayment
    simp only [h]
  · intro rt o1 l1 o2 l2 h
    unfold BytesEquals
    simp only [h]
  · intro rt o1 l1 o2 l2 h
    unfold StringEquals
    simp only [h]
  · intro rt o l h
    unfold Base58
    simp only [h]
  · intro rt o l h
    unfold ToBase58String
    simp only [h]
  · intro rt o1 l1 o2 l2 h
    unfold Concat
    simp only [h]
  · intro stack rt o1 l1 o2 l2 h
    unfold CallContract
    simp only [h]
  · intro rt mem o l a hmem h
    refine ⟨?_, ?_, ?_, ?_, ?_⟩
    · unfold CallArgBinary
      simp only [hmem, readBytes_inbounds mem o l h, Option.isSome_some]
    · unfold CallArgString
      simp only [hmem, readBytes_inbounds mem o l h, Option.isSome_some]
    · unfold CallPayment
      simp only [hmem, readBytes_inbounds mem o l h, Option.isSome_some]
    · unfold Base58
      simp only [hmem, readBytes_inbounds mem o l h]
      split
      · split <;> simp
      · simp
    · unfold ToBase58String
      simp only [hmem, readBytes_inbounds mem o l h, Option.isSome_some]
  · intro rt mem o1 l1 o2 l2 hmem h1 h2
    refine ⟨?_, ?_, ?_⟩
    · unfold BytesEquals
      simp only [hmem, readBytes_inbounds mem o1 l1 h1,
        readBytes_inbounds mem o2 l2 h2, Option.isSome_some]
    · unfold StringEquals
      simp only [hmem, readBytes_inbounds mem o1 l1 h1,
        readBytes_inbounds mem o2 l2 h2]
      split
      · split <;> simp
      · simp
    · unfold Concat
      simp only [hmem, readBytes_inbounds mem o1 l1 h1,
        readBytes_inbounds mem o2 l2 h2, Option.isSome_some]
  · intro stack rt mem o1 l1 o2 l2 hmem h1 h2
    unfold CallContract
    simp only [hmem, readBytes_inbounds mem o1 l1 h1,
      readBytes_inbounds mem o2 l2 h2]
    cases hbc : stack.getBytecode ((mem.drop o1).take l1) with
    | error e => simp
    | ok bc =>
      dsimp only
      by_cases hu : validUtf8 ((mem.drop o2).take l2) = true
      · rw [if_pos hu]
        cases hap : stack.addPayments ((mem.drop o1).take l1)
            (argsAndPayments rt).1.2 with
        | error e => simp
        | ok u =>
          dsimp only
          cases hc : stack.call ((mem.drop o1).take l1) bc
              ((mem.drop o2).take l2) (argsAndPayments rt).1.1 with
          | error e => simp
          | ok result =>
            dsimp only
            rcases result with _ | ⟨v0, tail⟩
            · simp
            · rcases tail with _ | ⟨v1, tail⟩
              · cases v0 <;> simp
              · simp
      · rw [if_neg hu]
        simp

/-- Witness for C1 (amended): missing-memory status for CallArgBinary, and
in-bounds totality for Base58, StringEquals and CallContract at concrete
inputs. -/
theorem claim_c1_amended_totality_witness :
    CallArgBinary ⟨none, 0, [], []⟩ 3 4 =
      some (RuntimeError.MemoryNotFound.asI32, ⟨none, 0, [], []⟩) ∧
    (Base58 ⟨some [49], 1, [], []⟩ 0 1).isSome = true ∧
    (StringEquals ⟨some [65, 66], 0, [], []⟩ 0 1 1 1).isSome = true ∧
    (CallContract
      { getBytecode := fun _ => Except.error (-9),
        addPayments := fun _ _ => Except.ok (),
        call := fun _ _ _ _ => Except.ok [] }
      ⟨some [65], 0, [], []⟩ 0 1 0 1).isSome = true := by
  have h := claim_c1_amended_totality
  exact ⟨h.1 ⟨none, 0, [], []⟩ 3 4 rfl,
    (h.2.2.2.2.2.2.2.2.2.1 ⟨some [49], 1, [], []⟩ [49] 0 1 0 rfl
      (by decide)).2.2.2.1,
    (h.2.2.2.2.2.2.2.2.2.2.1 ⟨some [65, 66], 0, [], []⟩ [65, 66] 0 1 1 1 rfl
      (by decide) (by decide)).2.1,
    h.2.2.2.2.2.2.2.2.2.2.2 _ ⟨some [65], 0, [], []⟩ [65] 0 1 0 1 rfl
      (by decide) (by decide)⟩

/-- C4: on a successful dispatch, a callee result of exactly one 32-bit
integer value is returned verbatim as the status of CallContract; any other
arity or result type yields the InvalidResult code. -/
theorem claim_c4_result_validation (stack : StackModel) (rt : Runtime)
    (mem bc : List Nat) (o1 l1 o2 l2 : Nat) (result : List WValue)
    (hmem : rt.memory = some mem) (h1 : o1 + l1 ≤ mem.length)
    (h2 : o2 + l2 ≤ mem.length)
    (hbc : stack.getBytecode ((mem.drop o1).take l1) = Except.ok bc)
    (hu : validUtf8 ((mem.drop o2).take l2) = true)
    (hap : stack.addPayments ((mem.drop o1).take l1) rt.payments = Except.ok ())
    (hc : stack.call ((mem.drop o1).take l1) bc ((mem.drop o2).take l2)
      (serializeArgs rt.args) = Except.ok result) :
    (∀ v, result = [WValue.I32 v] →
      CallContract stack rt o1 l1 o2 l2 =
        some (v, { rt with args := [], payments := [] })) ∧
    ((∀ v, result ≠ [WValue.I32 v]) →
      CallContract stack rt o1 l1 o2 l2 =
        some (RuntimeError.InvalidResult.asI32,
          { rt with args := [], payments := [] })) := by
  unfold CallContract
  simp only [hmem, readBytes_inbounds mem o1 l1 h1,
    readBytes_inbounds mem o2 l2 h2, hbc]
  rw [if_pos hu]
  simp only [argsAndPayments]
  simp only [hap, hc]
  constructor
  · rintro v rfl
    simp [hmem]
  · intro hne
    rcases result with _ | ⟨v0, tail⟩
    · simp [hmem]
    · rcases tail with _ | ⟨v1, tail⟩
      · cases v0 with
        | I32 v => exact absurd rfl (hne v)
        | I64 v => simp [hmem]
        | F32 v => simp [hmem]
        | F64 v => simp [hmem]
      · simp [hmem]

/-- Witness for C4: a callee returning exactly [I32 5] makes CallContract
return 5 verbatim. -/
theorem claim_c4_result_validation_witness :
    CallContract
      { getBytecode := fun _ => Except.ok [],
        addPayments := fun _ _ => Except.ok (),
        call := fun _ _ _ _ => Except.ok [WValue.I32 5] }
      ⟨some [100], 0, [], []⟩ 0 1 0 0 =
      some (5, ⟨some [100], 0, [], []⟩) :=
  (claim_c4_result_validation
    { getBytecode := fun _ => Except.ok [],
      addPayments := fun _ _ => Except.ok (),
      call := fun _ _ _ _ => Except.ok [WValue.I32 5] }
    ⟨some [100], 0, [], []⟩ [100] [] 0 1 0 0 [WValue.I32 5]
    rfl (by decide) (by decide) rfl rfl rfl rfl).1 5 rfl

/-- C10: when CallContract fails before its drain point — no memory attached,
registry error for the contract identifier, or non-UTF-8 function name — it
returns the corresponding error code with the staged args and payments of the
runtime left entirely unchanged (the very same state record). -/
theorem claim_c10_pre_drain_failures (stack : StackModel) (rt : Runtime)
    (mem : List Nat) (o1 l1 o2 l2 : Nat) :
    (rt.memory = none →
      CallContract stack rt o1 l1 o2 l2 =
        some (RuntimeError.MemoryNotFound.asI32, rt)) ∧
    (∀ e, rt.memory = some mem → o1 + l1 ≤ mem.length →
      stack.getBytecode ((mem.drop o1).take l1) = Except.error e →
      CallContract stack rt o1 l1 o2 l2 = some (e, rt)) ∧
    (∀ bc, rt.memory = some mem → o1 + l1 ≤ mem.length →
      o2 + l2 ≤ mem.length →
      stack.getBytecode ((mem.drop o1).take l1) = Except.ok bc →
      validUtf8 ((mem.drop o2).take l2) = false →
      CallContract stack rt o1 l1 o2 l2 =
        some (RuntimeError.Utf8Error.asI32, rt)) := by
  refine ⟨fun hmem => ?_, fun e hmem h1 hbc => ?_, fun bc hmem h1 h2 hbc hu => ?_⟩
  · unfold CallContract
    simp only [hmem]
  · unfold CallContract
    simp only [hmem, readBytes_inbounds mem o1 l1 h1, hbc]
  · unfold CallContract
    simp only [hmem, readBytes_inbounds mem o1 l1 h1,
      readBytes_inbounds mem o2 l2 h2, hbc]
    rw [if_neg (by rw [hu]; exact Bool.false_ne_true)]

/-- Witness for C10: the three pre-drain failures at concrete inputs, each
leaving the staged Integer argument and payment ledger in place. -/
theorem claim_c10_pre_drain_failures_witness :
    CallContract
      { getBytecode := fun _ => Except.ok [],
        addPayments := fun _ _ => Except.ok (),
        call := fun _ _ _ _ => Except.ok [] }
      ⟨none, 0, [DataEntry.Integer 1], [([88], 2)]⟩ 0 1 0 1 =
      some (RuntimeError.MemoryNotFound.asI32,
        ⟨none, 0, [DataEntry.Integer 1], [([88], 2)]⟩) ∧
    CallContract
      { getBytecode := fun _ => Except.error (-7),
        addPayments := fun _ _ => Except.ok (),
        call := fun _ _ _ _ => Except.ok [] }
      ⟨some [1], 0, [DataEntry.Integer 1], [([88], 2)]⟩ 0 1 0 1 =
      some (-7, ⟨some [1], 0, [DataEntry.Integer 1], [([88], 2)]⟩) ∧
    CallContract
      { getBytecode := fun _ => Except.ok [],
        addPayments := fun _ _ => Except.ok (),
        call := fun _ _ _ _ => Except.ok [] }
      ⟨some [255], 0, [DataEntry.Integer 1], [([88], 2)]⟩ 0 1 0 1 =
      some (RuntimeError.Utf8Error.asI32,
        ⟨some [255], 0, [DataEntry.Integer 1], [([88], 2)]⟩) :=
  ⟨(claim_c10_pre_drain_failures _ _ [] 0 1 0 1).1 rfl,
   (claim_c10_pre_drain_failures _ _ [1] 0 1 0 1).2.1 (-7) rfl (by decide) rfl,
   (claim_c10_pre_drain_failures _ _ [255] 0 1 0 1).2.2 [] rfl (by decide)
     (by decide) rfl rfl⟩

/-- C6 counterexample: an argument staged before a CallContract invocation
that fails pre-drain (non-UTF-8 function name) survives that invocation and
is consumed by the next one, so staged state does cross a (failed)
invocation's boundary.  The callee here reports the byte length of the input
data it received: the second invocation returns 9, the wire size of the
Integer entry staged before the first invocation (and 0 is the size of an
empty queue). -/
theorem claim_c6_counterexample :
    CallContract
      { getBytecode := fun _ => Except.ok [],
        addPayments := fun _ _ => Except.ok (),
        call := fun _ _ _ input => Except.ok [WValue.I32 (input.length : Int)] }
      ⟨some [102, 255], 0, [DataEntry.Integer 7], []⟩ 0 1 1 1 =
      some (RuntimeError.Utf8Error.asI32,
        ⟨some [102, 255], 0, [DataEntry.Integer 7], []⟩) ∧
    CallContract
      { getBytecode := fun _ => Except.ok [],
        addPayments := fun _ _ => Except.ok (),
        call := fun _ _ _ input => Except.ok [WValue.I32 (input.length : Int)] }
      ⟨some [102, 255], 0, [DataEntry.Integer 7], []⟩ 0 1 0 1 =
      some (9, ⟨some [102, 255], 0, [], []⟩) ∧
    (serializeArgs [DataEntry.Integer 7]).length = 9 ∧
    (serializeArgs []).length = 0 := by
  exact ⟨rfl, rfl, rfl, rfl⟩

/-- C6 (amended): in every CallContract invocation the staged args and
payments are drained together, atomically and at most once, at the single
drain point before settlement and dispatch: every invocation either leaves
the runtime exactly unchanged (when it fails before the drain point) or
consumes both staged queues completely.  Staged state does, however, survive
an invocation that fails before the drain point, and is then consumed by a
later invocation. -/
theorem claim_c6_amended_drain (stack : StackModel) (rt : Runtime)
    (o1 l1 o2 l2 : Nat) (s : Int) (rt2 : Runtime)
    (h : CallContract stack rt o1 l1 o2 l2 = some (s, rt2)) :
    rt2 = rt ∨ (rt2.args = [] ∧ rt2.payments = []) := by
  unfold CallContract at h
  cases hmem : rt.memory with
  | none =>
    rw [hmem] at h
    simp only [Option.some.injEq, Prod.mk.injEq] at h
    exact Or.inl h.2.symm
  | some mem =>
    rw [hmem] at h
    dsimp only at h
    cases hrb : readBytes mem o1 l1 with
    | none => rw [hrb] at h; exact absurd h (by simp)
    | some cid =>
      rw [hrb] at h
      dsimp only at h
      cases hbc : stack.getBytecode cid with
      | error e =>
        rw [hbc] at h
        simp only [Option.some.injEq, Prod.mk.injEq] at h
        exact Or.inl h.2.symm
      | ok bc =>
        rw [hbc] at h
        dsimp only at h
        cases hrb2 : readBytes mem o2 l2 with
        | none => rw [hrb2] at h; exact absurd h (by simp)
        | some fn =>
          rw [hrb2] at h
          dsimp only at h
          by_cases hu : validUtf8 fn = true
          · rw [if_pos hu] at h
            refine Or.inr ?_
            cases hap : stack.addPayments cid (argsAndPayments rt).1.2 with
            | error e =>
              rw [hap] at h
              simp only [Option.some.injEq, Prod.mk.injEq] at h
              obtain ⟨-, hrt⟩ := h
              subst hrt
              exact ⟨rfl, rfl⟩
            | ok u =>
              rw [hap] at h
              dsimp only at h
              cases hc : stack.call cid bc fn (argsAndPayments rt).1.1 with
              | error e =>
                rw [hc] at h
                simp only [Option.some.injEq, Prod.mk.injEq] at h
                obtain ⟨-, hrt⟩ := h
                subst hrt
                exact ⟨rfl, rfl⟩
              | ok result =>
                rw [hc] at h
                dsimp only at h
                rcases result with _ | ⟨v0, tail⟩
                · simp only [Option.some.injEq, Prod.mk.injEq] at h
                  obtain ⟨-, hrt⟩ := h
                  subst hrt
                  exact ⟨rfl, rfl⟩
                · rcases tail with _ | ⟨v1, tail⟩
                  · cases v0 <;>
                      (simp only [Option.some.injEq, Prod.mk.injEq] at h;
                       obtain ⟨-, hrt⟩ := h; subst hrt; exact ⟨rfl, rfl⟩)
                  · simp only [Option.some.injEq, Prod.mk.injEq] at h
                    obtain ⟨-, hrt⟩ := h
                    subst hrt
                    exact ⟨rfl, rfl⟩
          · rw [if_neg hu] at h
            simp only [Option.some.injEq, Prod.mk.injEq] at h
            exact Or.inl h.2.symm

/-- Witness for C6 (amended): a pre-drain failure leaves the state unchanged,
which satisfies the disjunction. -/
theorem claim_c6_amended_drain_witness :
    (⟨none, 0, [DataEntry.Integer 1], []⟩ : Runtime) =
      ⟨none, 0, [DataEntry.Integer 1], []⟩ ∨
    (Runtime.args ⟨none, 0, [DataEntry.Integer 1], []⟩ = [] ∧
     Runtime.payments ⟨none, 0, [DataEntry.Integer 1], []⟩ = []) :=
  claim_c6_amended_drain
    { getBytecode := fun _ => Except.ok [],
      addPayments := fun _ _ => Except.ok (),
      call := fun _ _ _ _ => Except.ok [] }
    ⟨none, 0, [DataEntry.Integer 1], []⟩ 0 1 0 1
    RuntimeError.MemoryNotFound.asI32 ⟨none, 0, [DataEntry.Integer 1], []⟩ rfl

/-- C7: base58 round-trips — decoding the encoding of any byte sequence
yields it back, and encoding the decoding of any valid base58 string yields
the string back; at the host level, ToBase58String writes the encoding via
the write protocol, and Base58 returns status 0 exactly on valid base58
string input, the Base58Error code on invalid base58, writing the decoded
bytes on success. -/
theorem claim_c7_base58_roundtrip :
    (∀ x : List Nat, (∀ b ∈ x, b < 256) → fromBase58 (toBase58 x) = some x) ∧
    (∀ s y : List Nat, fromBase58 s = some y → toBase58 y = s) ∧
    (∀ rt : Runtime, ∀ mem : List Nat, ∀ o l : Nat,
      rt.memory = some mem → o + l ≤ mem.length →
      ToBase58String rt o l =
        some ((0, (rt.heapBase : Int),
            ((toBase58 ((mem.drop o).take l)).length : Int)),
          { rt with memory := some (writeMemory mem rt.heapBase
            (toBase58 ((mem.drop o).take l))).1 })) ∧
    (∀ rt : Runtime, ∀ mem : List Nat, ∀ o l : Nat, ∀ r : List Nat,
      rt.memory = some mem → o + l ≤ mem.length →
      validUtf8 ((mem.drop o).take l) = true →
      fromBase58 ((mem.drop o).take l) = some r →
      Base58 rt o l =
        some ((0, (rt.heapBase : Int), (r.length : Int)),
          { rt with memory := some (writeMemory mem rt.heapBase r).1 })) ∧
    (∀ rt : Runtime, ∀ mem : List Nat, ∀ o l : Nat,
      rt.memory = some mem → o + l ≤ mem.length →
      validUtf8 ((mem.drop o).take l) = true →
      fromBase58 ((mem.drop o).take l) = none →
      Base58 rt o l = some ((RuntimeError.Base58Error.asI32, 0, 0), rt)) := by
  refine ⟨fromBase58_toBase58, toBase58_fromBase58, ?_, ?_, ?_⟩
  · intro rt mem o l hmem h
    unfold ToBase58String
    simp only [hmem, readBytes_inbounds mem o l h, writeMemory]
  · intro rt mem o l r hmem h hu hfb
    unfold Base58
    simp only [hmem, readBytes_inbounds mem o l h]
    rw [if_pos hu]
    simp only [hfb, writeMemory]
  · intro rt mem o l hmem h hu hfb
    unfold Base58
    simp only [hmem, readBytes_inbounds mem o l h]
    rw [if_pos hu]
    simp only [hfb]

/-- Witness for C7: the pure round trips at [0, 255] and at the string "2",
plus the three host-level shapes at one-byte memories. -/
theorem claim_c7_base58_roundtrip_witness :
    fromBase58 (toBase58 [0, 255]) = some [0, 255] ∧
    toBase58 [1] = [50] ∧
    ToBase58String ⟨some [0], 1, [], []⟩ 0 1 =
      some ((0, ((1 : Nat) : Int),
          ((toBase58 (([0].drop 0).take 1)).length : Int)),
        { (⟨some [0], 1, [], []⟩ : Runtime) with
          memory := some (writeMemory [0] 1 (toBase58 (([0].drop 0).take 1))).1 }) ∧
    Base58 ⟨some [49], 0, [], []⟩ 0 1 =
      some ((0, ((0 : Nat) : Int), (([0] : List Nat).length : Int)),
        { (⟨some [49], 0, [], []⟩ : Runtime) with
          memory := some (writeMemory [49] 0 [0]).1 }) ∧
    Base58 ⟨some [48], 0, [], []⟩ 0 1 =
      some ((RuntimeError.Base58Error.asI32, 0, 0), ⟨some [48], 0, [], []⟩) := by
  have h := claim_c7_base58_roundtrip
  exact ⟨h.1 [0, 255] (by decide),
    h.2.1 [50] [1] (by decide),
    h.2.2.1 ⟨some [0], 1, [], []⟩ [0] 0 1 rfl (by decide),
    h.2.2.2.1 ⟨some [49], 0, [], []⟩ [49] 0 1 [0] rfl (by decide) (by decide)
      (by decide),
    h.2.2.2.2 ⟨some [48], 0, [], []⟩ [48] 0 1 rfl (by decide) (by decide)
      (by decide)⟩
